import Mathlib

/-!
Verification development for the radar rainfall analyzer
(`Analisi_file_radar.py`).

The Python program aggregates hourly precipitation rasters ("tiles") over
sliding time windows, crops the summed raster to a zone polygon, computes
statistics over valid pixels, and post-processes a 24h result table into an
NRCS-CN equivalent-rainfall (Peq0) correction.

Shallow embedding conventions used throughout:
* timestamps are natural numbers counting whole hours since an epoch
  (every tile participating in aggregation is top-of-hour, so hour
  granularity is exact); the calendar day of an hour `t` is `t / 24`;
* raster arrays are `List ℚ` of pixel values (float64 idealized as ℚ);
  an unreadable raster file is `Option.none`;
* a Python function that can raise an uncaught exception is embedded in
  `Except String`, the payload naming the offending file;
* the spatial cropping step (`rasterio.mask` + shapefile geometry) is an
  external geometric library; it is abstracted as a parameter
  `crop : List ℚ → Option (List ℚ)` (`none` models the except-branch of
  `ritaglia_raster_sommato_con_shapefile`, which returns `None, None`).
-/

namespace Radar

/-- An hourly radar tile: file path, top-of-hour timestamp (hours since an
epoch), and band-1 pixel data; `pixels = none` models a file on which
`rasterio.open`/`read` raises. -/
structure Tile where
  path : String
  timestamp : ℕ
  pixels : Option (List ℚ)
deriving DecidableEq

/-- Membership filter of `somma_file_tif_finestra` (source lines 586-591):
keep the tiles whose timestamp `t` satisfies
`finestra_inizio <= t < finestra_fine`. -/
def file_finestra (tiles : List Tile) (ini fine : ℕ) : List Tile :=
  tiles.filter (fun t => decide (ini ≤ t.timestamp) && decide (t.timestamp < fine))

/-- Pixel-wise sum of two equal-shape rasters (`data_somma + data_temp`). -/
def sommaPixel (a b : List ℚ) : List ℚ :=
  List.zipWith (· + ·) a b

/-- Embedding of `somma_file_tif_finestra` (source lines 577-624) in pixel
space.  The first matching tile is opened OUTSIDE any try/except: if it is
unreadable the exception propagates (`.error`).  Every later matching tile
is opened inside try/except and silently skipped on failure.  An empty
match list returns `None` (here `.ok none`).  On success the function also
returns `file_inclusi`, the paths of all matched tiles. -/
def somma_file_tif_finestra (tiles : List Tile) (ini fine : ℕ) :
    Except String (Option (List ℚ × List String)) :=
  match file_finestra tiles ini fine with
  | [] => .ok none
  | t0 :: rest =>
    match t0.pixels with
    | none => .error t0.path
    | some d0 =>
      let somma := rest.foldl
        (fun acc t =>
          match t.pixels with
          | some d => sommaPixel acc d
          | none => acc) d0
      .ok (some (somma, (t0 :: rest).map Tile.path))

/-- Statistics switches of the configuration (`statistiche_config`), one
boolean per statistic name, as read by
`calcola_statistiche_su_array_ritagliato`. -/
structure ConfigStatistiche where
  media : Bool
  mediana : Bool
  perc75 : Bool
  perc95 : Bool
  perc99 : Bool
  max : Bool
  min : Bool
  std : Bool
deriving DecidableEq

/-- Insert into a sorted list (ascending); helper for `npSort`. -/
def insOrd (x : ℚ) : List ℚ → List ℚ
  | [] => [x]
  | y :: ys => if x ≤ y then x :: y :: ys else y :: insOrd x ys

/-- Ascending sort of the valid-pixel values (insertion sort; any correct
sort matches numpy's internal sort for the order statistics below). -/
def npSort (xs : List ℚ) : List ℚ :=
  xs.foldr insOrd []

/-- Arithmetic mean, `np.mean`. -/
def npMean (xs : List ℚ) : ℚ :=
  xs.sum / xs.length

/-- Median, `np.median`: middle element of the sorted data, or the average
of the two middle elements for even length. -/
def npMedian (xs : List ℚ) : ℚ :=
  let s := npSort xs
  let n := s.length
  if n % 2 = 1 then ((s.get? (n / 2)).getD 0)
  else (((s.get? (n / 2 - 1)).getD 0) + ((s.get? (n / 2)).getD 0)) / 2

/-- Percentile with linear interpolation, `np.percentile(xs, q)`:
position `h = (n-1)*q/100` in the sorted data, interpolating between the
neighbouring order statistics. -/
def npPercentile (q : ℕ) (xs : List ℚ) : ℚ :=
  let s := npSort xs
  let n := s.length
  let lo := ((n - 1) * q) / 100
  let h : ℚ := (((n : ℚ) - 1) * q) / 100
  let vlo := (s.get? lo).getD 0
  let vhi := (s.get? (lo + 1)).getD vlo
  vlo + (h - (lo : ℚ)) * (vhi - vlo)

/-- Maximum of a value list, `np.max` (0 on the empty list, which the
caller excludes). -/
def npMax (xs : List ℚ) : ℚ :=
  match xs with
  | [] => 0
  | x :: r => r.foldl (fun a b => if a < b then b else a) x

/-- Minimum of a value list, `np.min`. -/
def npMin (xs : List ℚ) : ℚ :=
  match xs with
  | [] => 0
  | x :: r => r.foldl (fun a b => if b < a then b else a) x

/-- Population variance, i.e. the square of `np.std`.  `np.std` is the
real square root of this value, which is irrational in general and hence
not representable in the ℚ pixel domain; no claim refers to the numeric
value of the std statistic, only to its presence or absence, which is
unaffected by storing the radicand. -/
def npStdSq (xs : List ℚ) : ℚ :=
  let m := npMean xs
  (xs.map (fun x => (x - m) * (x - m))).sum / xs.length

/-- Result dictionary of the statistics evaluator: one optional entry per
statistic name; `none` models the key being absent from the Python dict. -/
structure Statistiche where
  media : Option ℚ
  mediana : Option ℚ
  perc75 : Option ℚ
  perc95 : Option ℚ
  perc99 : Option ℚ
  max : Option ℚ
  min : Option ℚ
  std : Option ℚ
deriving DecidableEq

/-- Python truthiness of the statistics dict (`if stats:`): true iff at
least one key is present. -/
def Statistiche.nonVuoto (s : Statistiche) : Bool :=
  s.media.isSome || s.mediana.isSome || s.perc75.isSome || s.perc95.isSome ||
  s.perc99.isSome || s.max.isSome || s.min.isSome || s.std.isSome

/-- Valid-pixel selection of the statistics evaluator:
`mask_validi = array_ritagliato >= 0`. -/
def valori_validi (a : List ℚ) : List ℚ :=
  a.filter (fun x => decide (0 ≤ x))

/-- Embedding of `calcola_statistiche_su_array_ritagliato` (source lines
662-702).  `none` input models `array_ritagliato is None`; if no pixel is
`>= 0` the result is `none`; otherwise each enabled statistic is computed
over the valid pixels and disabled statistics are absent. -/
def calcola_statistiche_su_array_ritagliato
    (array_ritagliato : Option (List ℚ)) (cfg : ConfigStatistiche) :
    Option Statistiche :=
  match array_ritagliato with
  | none => none
  | some a =>
    let validi := valori_validi a
    if validi.isEmpty then none
    else
      some
        { media := if cfg.media then some (npMean validi) else none
          mediana := if cfg.mediana then some (npMedian validi) else none
          perc75 := if cfg.perc75 then some (npPercentile 75 validi) else none
          perc95 := if cfg.perc95 then some (npPercentile 95 validi) else none
          perc99 := if cfg.perc99 then some (npPercentile 99 validi) else none
          max := if cfg.max then some (npMax validi) else none
          min := if cfg.min then some (npMin validi) else none
          std := if cfg.std then some (npStdSq validi) else none }

/-- One entry of `lista_finestre_log`: window start, window end, the
statistics dict, and the included file names. -/
structure LogEntry where
  ini : ℕ
  fine : ℕ
  stats : Statistiche
  files : List String
deriving DecidableEq

/-- Minimum of the tile timestamps, `min_time = min(timestamps)`
(0 on the empty list, which the caller excludes). -/
def minTs (tiles : List Tile) : ℕ :=
  match tiles.map Tile.timestamp with
  | [] => 0
  | x :: r => r.foldl Nat.min x

/-- Maximum of the tile timestamps, `max_time = max(timestamps)`. -/
def maxTs (tiles : List Tile) : ℕ :=
  match tiles.map Tile.timestamp with
  | [] => 0
  | x :: r => r.foldl Nat.max x

/-- Fuel-driven helper for `loopStarts`: at most `fuel` further
iterations of the while loop.  `loopStarts` always supplies enough fuel,
see `loopStarts_eq`. -/
def loopStartsFuel : ℕ → ℕ → ℕ → ℕ → List ℕ
  | 0, _, _, _ => []
  | fuel + 1, corrente, maxEff, durata =>
    if corrente + durata ≤ maxEff then
      corrente :: loopStartsFuel fuel (corrente + 1) maxEff durata
    else []

/-- Start times visited by the sliding loop of
`finestre_mobili_con_somma_e_ritaglio` (source lines 789-825):
`corrente` starts at `min_time` and advances in 1-hour steps while
`corrente + durata <= max_time_effettivo` (the structural-fuel encoding
makes the definition compute; `loopStarts_eq` recovers the while-loop
unfolding). -/
def loopStarts (corrente maxEff durata : ℕ) : List ℕ :=
  loopStartsFuel (maxEff + 1 - corrente) corrente maxEff durata

/-- The while-loop unfolding of `loopStarts`. -/
theorem loopStarts_eq (corrente maxEff durata : ℕ) :
    loopStarts corrente maxEff durata =
      if corrente + durata ≤ maxEff then
        corrente :: loopStarts (corrente + 1) maxEff durata
      else [] := by
  unfold loopStarts
  rcases h : maxEff + 1 - corrente with _ | k
  · have hgt : ¬corrente + durata ≤ maxEff := by omega
    simp [loopStartsFuel, hgt]
  · have hk : maxEff + 1 - (corrente + 1) = k := by omega
    simp [loopStartsFuel, hk]

/-- Evaluation of one candidate window: sum the matching tiles, crop the
summed raster, compute the statistics (the body of the sliding loop,
source lines 800-814, and of the 24h branch).  `.ok none` covers all the
skip cases: no matching file, failed crop, or null statistics. -/
def valuta_finestra (crop : List ℚ → Option (List ℚ)) (cfg : ConfigStatistiche)
    (tiles : List Tile) (ini fine : ℕ) :
    Except String (Option (Statistiche × List String)) :=
  match somma_file_tif_finestra tiles ini fine with
  | .error e => .error e
  | .ok none => .ok none
  | .ok (some (data_somma, file_inclusi)) =>
    match crop data_somma with
    | none => .ok none
    | some arr =>
      match calcola_statistiche_su_array_ritagliato (some arr) cfg with
      | none => .ok none
      | some s => .ok (some (s, file_inclusi))

/-- The sliding loop over a list of window starts: accumulates
`risultati` (pairs `(corrente, stats)`) and `lista_finestre_log`, both in
chronological order; a window is recorded only when its statistics dict is
truthy (`if stats:`). -/
def rollingLoop (crop : List ℚ → Option (List ℚ)) (cfg : ConfigStatistiche)
    (tiles : List Tile) (durata : ℕ) :
    List ℕ → Except String (List (ℕ × Statistiche) × List LogEntry)
  | [] => .ok ([], [])
  | c :: rest =>
    match valuta_finestra crop cfg tiles c (c + durata) with
    | .error e => .error e
    | .ok res =>
      match rollingLoop crop cfg tiles durata rest with
      | .error e => .error e
      | .ok (ris, log) =>
        match res with
        | some (s, files) =>
          if s.nonVuoto then
            .ok ((c, s) :: ris, ⟨c, c + durata, s, files⟩ :: log)
          else .ok (ris, log)
        | none => .ok (ris, log)

/-- The whole rolling pass of `finestre_mobili_con_somma_e_ritaglio`:
the loop run over the starts enumerated by `loopStarts`. -/
def rollingRun (crop : List ℚ → Option (List ℚ)) (cfg : ConfigStatistiche)
    (tiles : List Tile) (durata minT maxEff : ℕ) :
    Except String (List (ℕ × Statistiche) × List LogEntry) :=
  rollingLoop crop cfg tiles durata (loopStarts minT maxEff durata)

/-- Key used to rank windows:
`lambda x: x[1].get('media', 0)` (source line 833). -/
def mediaKey (p : ℕ × Statistiche) : ℚ :=
  p.2.media.getD 0

/-- Python `max(risultati, key=...)`: linear scan keeping the FIRST
element whose key is maximal (a later element replaces the current best
only when strictly greater). -/
def maxByMedia : List (ℕ × Statistiche) → Option (ℕ × Statistiche)
  | [] => none
  | x :: xs =>
    some (xs.foldl (fun best y => if mediaKey best < mediaKey y then y else best) x)

/-- Embedding of `finestre_mobili_con_somma_e_ritaglio` (source lines
705-834).  `shapefileOk` models whether `gpd.read_file(shapefile_path)`
succeeds; `giorno` is the day index of `data_corrente` (hours
`giorno*24 .. giorno*24+23`).  The 24h special case first restricts the
tile list to the tiles of the calendar day `giorno` and evaluates the
single window `[giorno*24, giorno*24+24)`; every other duration runs the
sliding loop over `[min_time, max_time+1h)` and selects the maximum-mean
window by linear scan. -/
def finestre_mobili_con_somma_e_ritaglio (crop : List ℚ → Option (List ℚ))
    (shapefileOk : Bool) (file_con_timestamp : List Tile) (durata_ore : ℕ)
    (giorno : ℕ) (cfg : ConfigStatistiche) :
    Except String (Option Statistiche × List LogEntry) :=
  if file_con_timestamp.isEmpty then .ok (none, [])
  else if !shapefileOk then .ok (none, [])
  else if durata_ore = 24 then
    let file_data_corrente :=
      file_con_timestamp.filter (fun t => decide (t.timestamp / 24 = giorno))
    if file_data_corrente.isEmpty then .ok (none, [])
    else
      let ini_giorno := giorno * 24
      let fine_giorno := ini_giorno + 24
      match somma_file_tif_finestra file_data_corrente ini_giorno fine_giorno with
      | .error e => .error e
      | .ok none => .ok (none, [])
      | .ok (some (data_somma, file_inclusi)) =>
        match crop data_somma with
        | none => .ok (none, [])
        | some arr =>
          let stats := calcola_statistiche_su_array_ritagliato (some arr) cfg
          let log :=
            match stats with
            | some s =>
              if s.nonVuoto then [(⟨ini_giorno, fine_giorno, s, file_inclusi⟩ : LogEntry)]
              else []
            | none => []
          .ok (stats, log)
  else
    let minT := minTs file_con_timestamp
    let maxEff := maxTs file_con_timestamp + 1
    match rollingRun crop cfg file_con_timestamp durata_ore minT maxEff with
    | .error e => .error e
    | .ok (ris, log) =>
      match maxByMedia ris with
      | none => .ok (none, log)
      | some sel => .ok (some sel.2, log)

/-! ## Archive integrity verifier (`verifica_integrita_archivio`) -/

/-- A wall-clock instant as parsed by `estrai_timestamp`: day index plus
hour, minute, second within the day. -/
structure DT where
  giorno : ℕ
  ora : ℕ
  minuto : ℕ
  secondo : ℕ
deriving DecidableEq

/-- A file of a day directory as seen by the verifier.  `tif` is
`nome.endswith('.tif')`; `tsFile` is the result of `estrai_timestamp` on
the name; `apertura` is whether `rasterio.open` succeeds, `bande` is
`src.count`, `lettura` is whether `src.read(1)` succeeds, and `errore` is
the message of the exception raised when opening or reading fails. -/
structure FileTif where
  nome : String
  tif : Bool
  tsFile : Option DT
  apertura : Bool
  bande : ℕ
  lettura : Bool
  errore : String
deriving DecidableEq

/-- Error message attached to a zero-band file. -/
def msgSenzaBande : String := "File senza bande raster"

/-- Per-file outcome of the verifier scan. -/
inductive Classif where
  | valido : Classif
  | corrotto (msg : String) : Classif
  | saltato : Classif
deriving DecidableEq

/-- Classification of one directory entry (source lines 484-512): only
`.tif` files with a parsed top-of-hour timestamp are considered; a failed
open or read is corrupt with the underlying error, a zero-band file is
corrupt with `msgSenzaBande`, otherwise the file is valid. -/
def classifica (f : FileTif) : Classif :=
  if !f.tif then Classif.saltato
  else
    match f.tsFile with
    | none => Classif.saltato
    | some ts =>
      if ts.minuto = 0 ∧ ts.secondo = 0 then
        if !f.apertura then Classif.corrotto f.errore
        else if f.bande = 0 then Classif.corrotto msgSenzaBande
        else if !f.lettura then Classif.corrotto f.errore
        else Classif.valido
      else Classif.saltato

/-- The `FileIntegrityReport` lists: valid `(data, ora, percorso)`,
corrupt `(data, ora, percorso, errore)`, missing `(data, ora_attesa)`. -/
structure Report where
  validi : List (ℕ × DT × String)
  corrotti : List (ℕ × DT × String × String)
  mancanti : List (ℕ × DT)
deriving DecidableEq

/-- Expected top-of-hour timestamp `data_corrente.replace(hour=ora, ...)`. -/
def tsAtteso (d ora : ℕ) : DT :=
  ⟨d, ora, 0, 0⟩

/-- The valid-file report entry produced by one directory entry, if any:
`(data, ora, percorso)` for a file classified valid. -/
def entryValido (d : ℕ) (f : FileTif) : Option (ℕ × DT × String) :=
  match f.tsFile with
  | some ts =>
    match classifica f with
    | Classif.valido => some (d, ts, f.nome)
    | _ => none
  | none => none

/-- The corrupt-file report entry produced by one directory entry, if
any: `(data, ora, percorso, errore)` for a file classified corrupt. -/
def entryCorrotto (d : ℕ) (f : FileTif) : Option (ℕ × DT × String × String) :=
  match f.tsFile with
  | some ts =>
    match classifica f with
    | Classif.corrotto msg => some (d, ts, f.nome, msg)
    | _ => none
  | none => none

/-- Contribution of one calendar day to the report (the body of the loop
over `date_range`, source lines 462-518).  An absent directory records all
24 hours missing.  Otherwise files are classified, and an hour is missing
iff its expected timestamp is not among the timestamps of valid files
(`file_trovati` is populated ONLY in the valid branch, source line 505). -/
def processaGiorno (d : ℕ) (dir : Option (List FileTif)) : Report :=
  match dir with
  | none => ⟨[], [], (List.range 24).map (fun h => (d, tsAtteso d h))⟩
  | some files =>
    let validi := files.filterMap (entryValido d)
    let corrotti := files.filterMap (entryCorrotto d)
    let trovati := validi.map (fun e => e.2.1)
    let mancanti := (List.range 24).filterMap (fun h =>
      if tsAtteso d h ∈ trovati then none else some (d, tsAtteso d h))
    ⟨validi, corrotti, mancanti⟩

/-- Embedding of `verifica_integrita_archivio` (source lines 446-531).
`arch` is the archive: for each day index, either `none` (day directory
absent) or the directory listing.  The report lists are the per-day
contributions concatenated in day order (the Python code appends to the
shared report day by day, so concatenation is exact). -/
def verifica_integrita_archivio (arch : ℕ → Option (List FileTif))
    (dIni dFin : ℕ) : Report :=
  let giorni := List.range' dIni (dFin + 1 - dIni)
  ⟨giorni.flatMap (fun d => (processaGiorno d (arch d)).validi),
   giorni.flatMap (fun d => (processaGiorno d (arch d)).corrotti),
   giorni.flatMap (fun d => (processaGiorno d (arch d)).mancanti)⟩

/-! ## 5-day antecedent cumulative rainfall (`calcola_cum_5d`) -/

/-- Pandas `Series.rolling(window=6, min_periods=1).sum()` at position
`p`: the sum of the non-NaN values among the entries at indices
`max(0, p-5) .. p`, or NaN (`none`) when the window holds no non-NaN
value. -/
def rollingSum6 (s : List (Option ℚ)) (p : ℕ) : Option ℚ :=
  let lo := p + 1 - 6
  let vals := (List.range' lo (p + 1 - lo)).filterMap (fun j => (s.get? j).join)
  if vals.isEmpty then none else some vals.sum

/-- Embedding of `calcola_cum_5d` on one zone column (source lines
126-143): `rolling(window=6, min_periods=1).sum().shift(1).fillna(0)`.
NaN cells of the input column are `none`. -/
def calcola_cum_5d (s : List (Option ℚ)) : List ℚ :=
  (List.range s.length).map (fun i =>
    if i = 0 then (0 : ℚ) else (rollingSum6 s (i - 1)).getD 0)

/-! ## Peq0 merge (`somma_statistiche_con_peq0`) -/

/-- A date-indexed result table: zone column names, and one row per date
with the cells aligned with `colonne`; a `none` cell is a NaN. -/
structure DataFrame where
  colonne : List String
  righe : List (ℕ × List (Option ℚ))
deriving DecidableEq

/-- Index of a zone column in the column list (first occurrence). -/
def colIdx (cols : List String) (c : String) : Option ℕ :=
  match cols with
  | [] => none
  | c2 :: rest => if c2 = c then some 0 else (colIdx rest c).map (· + 1)

/-- Cell lookup: the value of zone column `c` at date `d`, `none` when the
row, the column, or the value is missing. -/
def cella (df : DataFrame) (d : ℕ) (c : String) : Option ℚ :=
  match df.righe.find? (fun r => decide (r.1 = d)) with
  | none => none
  | some r =>
    match colIdx df.colonne c with
    | none => none
    | some i => (r.2.get? i).join

/-- Merged cells of one result row: for each base zone column `c`,
`merged[col].fillna(0) + merged[col_peq0].fillna(0)`; the Peq0 side is 0
when the column is absent from the Peq0 table, when the date's row is
absent (left join produced NaN), or when the cell itself is NaN. -/
def mergeCelle (df_peq0 : DataFrame) (d : ℕ) :
    List String → List (Option ℚ) → List (Option ℚ)
  | [], _ => []
  | c :: cs, [] =>
    some ((0 : ℚ) + (cella df_peq0 d c).getD 0) :: mergeCelle df_peq0 d cs []
  | c :: cs, v :: vs =>
    some (v.getD 0 + (cella df_peq0 d c).getD 0) :: mergeCelle df_peq0 d cs vs

/-- Ascending insertion by date; helper for the final
`sort_values('Data')`. -/
def insRiga (x : ℕ × List (Option ℚ)) :
    List (ℕ × List (Option ℚ)) → List (ℕ × List (Option ℚ))
  | [] => [x]
  | y :: ys => if x.1 ≤ y.1 then x :: y :: ys else y :: insRiga x ys

/-- Sort the rows by date (`result.sort_values('Data')`). -/
def sortRighe (l : List (ℕ × List (Option ℚ))) : List (ℕ × List (Option ℚ)) :=
  l.foldr insRiga []

/-- Embedding of `somma_statistiche_con_peq0` (source lines 174-199): a
LEFT merge of the Peq0 table onto the base table's dates, keeping exactly
the base table's zone columns, then `base.fillna(0) + peq0.fillna(0)`
per cell, and a final sort by date.  Modelled for Peq0 tables with unique
dates (as `calcola_peq0_per_tutte_zone` produces: one row per date);
a pandas merge would duplicate rows on duplicated right-hand dates. -/
def somma_statistiche_con_peq0 (df_statistica df_peq0 : DataFrame) : DataFrame :=
  let righe := df_statistica.righe.map (fun r =>
    (r.1, mergeCelle df_peq0 r.1 df_statistica.colonne r.2))
  ⟨df_statistica.colonne, sortRighe righe⟩

/-! ## Peq0 formula (`calcola_peq0`) with float NaN semantics -/

/-- A float64 value: either NaN or a real number (infinities do not arise
on the execution paths the claims touch). -/
inductive FV where
  | nan : FV
  | val (x : ℝ) : FV

/-- Float addition; NaN propagates. -/
noncomputable def fadd : FV → FV → FV
  | FV.val a, FV.val b => FV.val (a + b)
  | _, _ => FV.nan

/-- Float subtraction; NaN propagates. -/
noncomputable def fsub : FV → FV → FV
  | FV.val a, FV.val b => FV.val (a - b)
  | _, _ => FV.nan

/-- Float multiplication; NaN propagates (in particular `0 * NaN = NaN`,
as in IEEE-754). -/
noncomputable def fmul : FV → FV → FV
  | FV.val a, FV.val b => FV.val (a * b)
  | _, _ => FV.nan

/-- Float division; `x / 0` with `x = 0` is NaN (the only zero-divisor
case reached by the claims; nonzero numerators over zero would be
infinities, which no claim touches, and are conservatively NaN here). -/
noncomputable def fdiv : FV → FV → FV
  | FV.val a, FV.val b => if b = 0 then FV.nan else FV.val (a / b)
  | _, _ => FV.nan

/-- `np.sqrt`: NaN on negative input, NaN propagates. -/
noncomputable def fsqrt : FV → FV
  | FV.val a => if a < 0 then FV.nan else FV.val (Real.sqrt a)
  | FV.nan => FV.nan

/-- `np.maximum`: NaN propagates if either operand is NaN. -/
noncomputable def fmax : FV → FV → FV
  | FV.val a, FV.val b => FV.val (max a b)
  | _, _ => FV.nan

/-- Fixed parameter `LAMBDA_PEQ = 0.2` (source line 44). -/
noncomputable def LAMBDA_PEQ : ℝ := 1 / 5

/-- Embedding of `calcola_peq0` (source lines 68-83):
`S = 25400/CN - 254`,
`sqrt_term = S * (P5 + ((1-lam)/2)^2 * S)`,
`M = np.maximum(np.sqrt(sqrt_term) - ((1+lam)/2) * S, 0)`,
result `M * (1 + lam * S / (S + M))`, all in float arithmetic. -/
noncomputable def calcola_peq0 (P5 CN : FV) (lam : ℝ) : FV :=
  let S := fsub (fdiv (FV.val 25400) CN) (FV.val 254)
  let sqrt_term := fmul S (fadd P5 (fmul (FV.val (((1 - lam) / 2) ^ 2)) S))
  let M := fmax (fsub (fsqrt sqrt_term) (fmul (FV.val ((1 + lam) / 2)) S)) (FV.val 0)
  fmul M (fadd (FV.val 1) (fdiv (fmul (FV.val lam) S) (fadd S M)))

/-- Cell-level guard of `calcola_peq0_per_tutte_zone` (source lines
160-171): for a zone with curve number `cn`, each P5 cell is mapped by
`lambda p5: calcola_peq0(p5, cn_value) if pd.notna(p5) and p5 > 0 else 0`;
a zone without a CN yields 0.  The guard checks only that `p5` is not NaN
and is positive — it does not restrict `cn`. -/
noncomputable def calcola_peq0_per_tutte_zone_cella (zone_cn : Option ℝ) (p5 : FV) : FV :=
  match zone_cn with
  | none => FV.val 0
  | some cn =>
    match p5 with
    | FV.nan => FV.val 0
    | FV.val x => if 0 < x then calcola_peq0 (FV.val x) (FV.val cn) LAMBDA_PEQ else FV.val 0

/-! ## Claim C1: half-open window membership -/

/-- C1 (confirmed).  Window membership in `somma_file_tif_finestra` is
strictly half-open: a tile is kept by the window filter iff it is in the
input list and `finestra_inizio ≤ timestamp < finestra_fine`; in
particular a tile whose timestamp equals the window end is excluded (take
`fine = t.timestamp`), and a tile whose timestamp equals the window start
is included exactly when it is in the list (take the window
`[t.timestamp, t.timestamp+1)`). -/
theorem c1_appartenenza_semiaperta (tiles : List Tile) (ini fine : ℕ) (t : Tile) :
    (t ∈ file_finestra tiles ini fine ↔
      t ∈ tiles ∧ ini ≤ t.timestamp ∧ t.timestamp < fine) ∧
    t ∉ file_finestra tiles ini t.timestamp ∧
    (t ∈ file_finestra tiles t.timestamp (t.timestamp + 1) ↔ t ∈ tiles) := by
  refine ⟨?_, ?_, ?_⟩ <;>
    simp [file_finestra, List.mem_filter]

/-! ## Claim C5: statistics only over valid pixels, null on no data -/

/-- A configuration with every statistic enabled (test fixture). -/
def cfgTutte : ConfigStatistiche :=
  ⟨true, true, true, true, true, true, true, true⟩

/-- Presence of a statistic in the result dict matches its switch. -/
theorem isSome_se_attiva (b : Bool) (v : ℚ) :
    (if b = true then some v else none).isSome = b := by
  cases b <;> simp

/-- C5 (confirmed).  The statistics evaluator (1) depends only on the
pixels with value ≥ 0 (filtering the array to its non-negative pixels
does not change the result), (2) returns null — not zero statistics —
when no pixel is ≥ 0, and (3) leaves statistics that are disabled in the
configuration absent from the result instead of defaulting them. -/
theorem c5_statistiche_pixel_validi (a : List ℚ) (cfg : ConfigStatistiche) :
    (calcola_statistiche_su_array_ritagliato (some a) cfg =
      calcola_statistiche_su_array_ritagliato
        (some (a.filter (fun x => decide (0 ≤ x)))) cfg) ∧
    ((∀ x ∈ a, x < 0) → calcola_statistiche_su_array_ritagliato (some a) cfg = none) ∧
    (∀ s, calcola_statistiche_su_array_ritagliato (some a) cfg = some s →
      s.media.isSome = cfg.media ∧ s.mediana.isSome = cfg.mediana ∧
      s.perc75.isSome = cfg.perc75 ∧ s.perc95.isSome = cfg.perc95 ∧
      s.perc99.isSome = cfg.perc99 ∧ s.max.isSome = cfg.max ∧
      s.min.isSome = cfg.min ∧ s.std.isSome = cfg.std) := by
  refine ⟨?_, ?_, ?_⟩
  · simp [calcola_statistiche_su_array_ritagliato, valori_validi, List.filter_filter]
  · intro hneg
    have hnil : valori_validi a = [] := by
      simp only [valori_validi, List.filter_eq_nil_iff]
      intro x hx
      simpa using not_le.mpr (hneg x hx)
    simp [calcola_statistiche_su_array_ritagliato, hnil]
  · intro s hs
    simp only [calcola_statistiche_su_array_ritagliato] at hs
    by_cases hemp : (valori_validi a).isEmpty
    · simp [hemp] at hs
    · simp only [hemp, Bool.false_eq_true, if_false, Option.some.injEq] at hs
      subst hs
      exact ⟨isSome_se_attiva _ _, isSome_se_attiva _ _, isSome_se_attiva _ _,
        isSome_se_attiva _ _, isSome_se_attiva _ _, isSome_se_attiva _ _,
        isSome_se_attiva _ _, isSome_se_attiva _ _⟩

/-- C5 witness: the all-negative array `[-1, -2]` yields a null result
(and the filter-invariance and absence parts at the same input). -/
theorem c5_statistiche_pixel_validi_witness :
    calcola_statistiche_su_array_ritagliato (some [-1, -2]) cfgTutte = none :=
  (c5_statistiche_pixel_validi [-1, -2] cfgTutte).2.1
    (by intro x hx; fin_cases hx <;> norm_num)

/-! ## Claim C6: unreadable tiles during summation -/

/-- Skipping of unreadable tiles in the accumulation loop: folding the
open-and-add step over a tile list equals folding plain pixel addition
over the successfully read rasters. -/
theorem foldl_somma_salta (rest : List Tile) (acc : List ℚ) :
    rest.foldl
      (fun acc t =>
        match t.pixels with
        | some d => sommaPixel acc d
        | none => acc) acc
      = (rest.filterMap Tile.pixels).foldl sommaPixel acc := by
  induction rest generalizing acc with
  | nil => rfl
  | cons t r ih =>
    cases h : t.pixels <;> simp [h, ih]

/-- C6 (corrected): counterexample.  A window `[0,1)` with exactly one
matching tile whose file is unreadable does NOT complete the summation:
`somma_file_tif_finestra` raises (the first matching tile is opened
outside any try/except, source lines 603-609), modelled as `.error`. -/
theorem c6_controesempio_primo_file :
    (file_finestra [⟨"20230105090000.tif", 0, none⟩] 0 1).length = 1 ∧
    somma_file_tif_finestra [⟨"20230105090000.tif", 0, none⟩] 0 1 =
      Except.error "20230105090000.tif" := by
  constructor <;> rfl

/-- C6 (corrected).  Amended claim: when the FIRST matching tile of the
window is readable, any later matching tile that fails to open is skipped
and the summation completes, returning the pixel-wise sum of the
successfully read tiles (the first tile's raster plus the readable later
rasters) together with the full matched-file list; only an unreadable
first matching tile aborts the sum. -/
theorem c6_somma_salta_illeggibili (tiles : List Tile) (ini fine : ℕ)
    (t0 : Tile) (rest : List Tile) (d0 : List ℚ)
    (hff : file_finestra tiles ini fine = t0 :: rest)
    (h0 : t0.pixels = some d0) :
    somma_file_tif_finestra tiles ini fine =
      Except.ok (some ((rest.filterMap Tile.pixels).foldl sommaPixel d0,
        (t0 :: rest).map Tile.path)) := by
  unfold somma_file_tif_finestra
  rw [hff]
  simp only [h0]
  rw [foldl_somma_salta]

/-- C6 witness: a three-tile window whose middle tile is unreadable sums
the first and last tiles and still lists all three files. -/
theorem c6_somma_salta_illeggibili_witness :
    somma_file_tif_finestra
      [⟨"a.tif", 0, some [1, 2]⟩, ⟨"b.tif", 1, none⟩, ⟨"c.tif", 2, some [3, 4]⟩]
      0 3 =
      Except.ok (some ([4, 6], ["a.tif", "b.tif", "c.tif"])) := by
  have h := c6_somma_salta_illeggibili
    [⟨"a.tif", 0, some [1, 2]⟩, ⟨"b.tif", 1, none⟩, ⟨"c.tif", 2, some [3, 4]⟩]
    0 3 ⟨"a.tif", 0, some [1, 2]⟩ [⟨"b.tif", 1, none⟩, ⟨"c.tif", 2, some [3, 4]⟩]
    [1, 2] rfl rfl
  rw [h]
  norm_num [sommaPixel, List.filterMap_cons, List.filterMap_nil]

/-! ## Claim C3: rolling window enumeration -/

/-- Membership in the fuel-bounded loop: the starts are exactly the hours
from `corrente` on that fit the window before `maxEff`, bounded by the
fuel. -/
theorem loopStartsFuel_mem (fuel : ℕ) :
    ∀ corrente maxEff durata s,
      s ∈ loopStartsFuel fuel corrente maxEff durata ↔
        corrente ≤ s ∧ s + durata ≤ maxEff ∧ s < corrente + fuel := by
  induction fuel with
  | zero => intro c m d s; simp [loopStartsFuel]; omega
  | succ fuel ih =>
    intro c m d s
    by_cases h : c + d ≤ m
    · simp only [loopStartsFuel, if_pos h, List.mem_cons, ih]
      constructor
      · rintro (rfl | ⟨h1, h2, h3⟩) <;> omega
      · rintro ⟨h1, h2, h3⟩
        rcases Nat.eq_or_lt_of_le h1 with rfl | hlt
        · exact Or.inl rfl
        · exact Or.inr ⟨hlt, h2, by omega⟩
    · simp only [loopStartsFuel, if_neg h, List.not_mem_nil, false_iff]
      omega

/-- Membership in the sliding loop: a window start `s` is visited iff
`min_time ≤ s` and `s + durata ≤ max_time_effettivo`. -/
theorem loopStarts_mem (corrente maxEff durata s : ℕ) :
    s ∈ loopStarts corrente maxEff durata ↔
      corrente ≤ s ∧ s + durata ≤ maxEff := by
  rw [loopStarts, loopStartsFuel_mem]
  omega

/-- Length of the fuel-bounded loop. -/
theorem loopStartsFuel_length (fuel : ℕ) :
    ∀ corrente maxEff durata,
      (loopStartsFuel fuel corrente maxEff durata).length =
        min fuel (maxEff + 1 - (corrente + durata)) := by
  induction fuel with
  | zero => intro c m d; simp [loopStartsFuel]
  | succ fuel ih =>
    intro c m d
    by_cases h : c + d ≤ m
    · simp only [loopStartsFuel, if_pos h, List.length_cons, ih]
      omega
    · simp only [loopStartsFuel, if_neg h, List.length_nil]
      omega

/-- Number of windows visited by the sliding loop (ℕ, truncated: zero
when the duration exceeds the effective span). -/
theorem loopStarts_length (corrente maxEff durata : ℕ) :
    (loopStarts corrente maxEff durata).length =
      maxEff + 1 - (corrente + durata) := by
  rw [loopStarts, loopStartsFuel_length]
  omega

/-- The visited starts are strictly increasing (1-hour steps). -/
theorem loopStartsFuel_pairwise (fuel : ℕ) :
    ∀ corrente maxEff durata,
      List.Pairwise (· < ·) (loopStartsFuel fuel corrente maxEff durata) := by
  induction fuel with
  | zero => intro c m d; simp [loopStartsFuel]
  | succ fuel ih =>
    intro c m d
    by_cases h : c + d ≤ m
    · simp only [loopStartsFuel, if_pos h, List.pairwise_cons]
      refine ⟨fun s hs => ?_, ih _ _ _⟩
      have := (loopStartsFuel_mem fuel _ _ _ s).mp hs
      omega
    · simp [loopStartsFuel, if_neg h]

/-- The window starts visited by the sliding loop strictly increase. -/
theorem loopStarts_pairwise (corrente maxEff durata : ℕ) :
    List.Pairwise (· < ·) (loopStarts corrente maxEff durata) :=
  loopStartsFuel_pairwise _ _ _ _

/-- A left fold of `Nat.min` is bounded by its initial value. -/
theorem foldl_min_le_init (r : List ℕ) : ∀ x, r.foldl Nat.min x ≤ x := by
  induction r with
  | nil => intro x; exact le_rfl
  | cons a r ih =>
    intro x
    exact le_trans (ih (Nat.min x a)) (Nat.min_le_left x a)

/-- A left fold of `Nat.max` dominates its initial value. -/
theorem init_le_foldl_max (r : List ℕ) : ∀ x, x ≤ r.foldl Nat.max x := by
  induction r with
  | nil => intro x; exact le_rfl
  | cons a r ih =>
    intro x
    exact le_trans (Nat.le_max_left x a) (ih (Nat.max x a))

/-- For a nonempty tile list the minimum timestamp is at most the
maximum timestamp. -/
theorem minTs_le_maxTs (tiles : List Tile) (hne : tiles ≠ []) :
    minTs tiles ≤ maxTs tiles := by
  unfold minTs maxTs
  rcases tiles with _ | ⟨t, r⟩
  · exact absurd rfl hne
  · simp only [List.map_cons]
    exact le_trans (foldl_min_le_init _ _) (init_le_foldl_max _ _)

/-- C3 (corrected): counterexample.  For a single tile at hour 0 and a
6-hour duration, the effective span is 1 hour, the sliding loop visits
zero windows, yet the claimed count `span_hours_effective − duration + 1`
is `1 − 6 + 1 = −4`: the claimed formula fails whenever the duration
exceeds the effective span. -/
theorem c3_controesempio_conteggio :
    minTs [⟨"t.tif", 0, some [1]⟩] = 0 ∧
    maxTs [⟨"t.tif", 0, some [1]⟩] = 0 ∧
    (loopStarts 0 (0 + 1) 6).length = 0 ∧
    ¬(((loopStarts 0 (0 + 1) 6).length : ℤ) = ((0 + 1 : ℤ) - 0) - 6 + 1) := by
  refine ⟨rfl, rfl, rfl, ?_⟩
  decide

/-- C3 (corrected).  Amended claim: for rolling durations the candidate
span is `[min(tile.timestamp), max(tile.timestamp)+1h)`, windows slide in
1-hour steps (a start `s` is visited iff `min_time ≤ s` and
`s + durata ≤ max_time+1`), and the number of visited windows equals
`span_hours_effective − duration + 1` PROVIDED the duration does not
exceed the effective span; otherwise it is zero (the original formula
would be negative). -/
theorem c3_finestre_rolling (tiles : List Tile) (durata : ℕ) (hne : tiles ≠ []) :
    (∀ s, s ∈ loopStarts (minTs tiles) (maxTs tiles + 1) durata ↔
        minTs tiles ≤ s ∧ s + durata ≤ maxTs tiles + 1) ∧
    ((loopStarts (minTs tiles) (maxTs tiles + 1) durata).length =
        maxTs tiles + 2 - (minTs tiles + durata)) ∧
    (durata ≤ maxTs tiles + 1 - minTs tiles →
      ((loopStarts (minTs tiles) (maxTs tiles + 1) durata).length : ℤ) =
        ((maxTs tiles : ℤ) + 1 - (minTs tiles : ℤ)) - (durata : ℤ) + 1) := by
  have hmm := minTs_le_maxTs tiles hne
  refine ⟨fun s => loopStarts_mem _ _ _ s, ?_, ?_⟩
  · rw [loopStarts_length]
  · intro hd
    rw [loopStarts_length]
    omega

/-- C3 witness: two tiles at hours 0 and 5, duration 3: the span is 6
effective hours and the loop visits `6 − 3 + 1 = 4` windows. -/
theorem c3_finestre_rolling_witness :
    [(⟨"a.tif", 0, some [1]⟩ : Tile), ⟨"b.tif", 5, some [1]⟩] ≠ [] ∧
    (3 ≤ maxTs [(⟨"a.tif", 0, some [1]⟩ : Tile), ⟨"b.tif", 5, some [1]⟩] + 1 -
      minTs [(⟨"a.tif", 0, some [1]⟩ : Tile), ⟨"b.tif", 5, some [1]⟩]) ∧
    ((loopStarts (minTs [(⟨"a.tif", 0, some [1]⟩ : Tile), ⟨"b.tif", 5, some [1]⟩])
        (maxTs [(⟨"a.tif", 0, some [1]⟩ : Tile), ⟨"b.tif", 5, some [1]⟩] + 1) 3).length : ℤ) =
      ((maxTs [(⟨"a.tif", 0, some [1]⟩ : Tile), ⟨"b.tif", 5, some [1]⟩] : ℤ) + 1 -
        (minTs [(⟨"a.tif", 0, some [1]⟩ : Tile), ⟨"b.tif", 5, some [1]⟩] : ℤ)) - 3 + 1 := by
  refine ⟨?_, ?_, ?_⟩
  · intro h
    exact absurd (congrArg List.length h) (by decide)
  · decide
  · exact (c3_finestre_rolling [⟨"a.tif", 0, some [1]⟩, ⟨"b.tif", 5, some [1]⟩] 3
      (by intro h; exact absurd (congrArg List.length h) (by decide))).2.2 (by decide)

/-! ## Claim C2: maximum-mean window selection -/

/-- Invariant of Python's `max(..., key=...)` linear scan (a later
element replaces the current best only when strictly greater): the result
is either the initial element, with nothing in the list exceeding it, or
the FIRST list element strictly exceeding the initial element and
everything before it, with nothing after it strictly exceeding it. -/
theorem scanMax_spec (xs : List (ℕ × Statistiche)) :
    ∀ x : ℕ × Statistiche,
      (xs.foldl (fun best y => if mediaKey best < mediaKey y then y else best) x = x ∧
        ∀ y ∈ xs, mediaKey y ≤ mediaKey x) ∨
      (∃ xs1 r xs2, xs = xs1 ++ r :: xs2 ∧
        xs.foldl (fun best y => if mediaKey best < mediaKey y then y else best) x = r ∧
        mediaKey x < mediaKey r ∧
        (∀ y ∈ xs1, mediaKey y < mediaKey r) ∧
        (∀ y ∈ xs2, mediaKey y ≤ mediaKey r)) := by
  induction xs with
  | nil =>
    intro x
    exact Or.inl ⟨rfl, by simp⟩
  | cons z zs ih =>
    intro x
    simp only [List.foldl_cons]
    by_cases h : mediaKey x < mediaKey z
    · rw [if_pos h]
      rcases ih z with ⟨heq, hall⟩ | ⟨xs1, r, xs2, hsplit, heq, hlt, h1, h2⟩
      · exact Or.inr ⟨[], z, zs, by simp, heq, h, by simp, hall⟩
      · refine Or.inr ⟨z :: xs1, r, xs2, by simp [hsplit], heq, lt_trans h hlt, ?_, h2⟩
        intro y hy
        rcases List.mem_cons.mp hy with rfl | hy2
        · exact hlt
        · exact h1 y hy2
    · rw [if_neg h]
      rcases ih x with ⟨heq, hall⟩ | ⟨xs1, r, xs2, hsplit, heq, hlt, h1, h2⟩
      · refine Or.inl ⟨heq, fun y hy => ?_⟩
        rcases List.mem_cons.mp hy with rfl | hy2
        · exact not_lt.mp h
        · exact hall y hy2
      · refine Or.inr ⟨z :: xs1, r, xs2, by simp [hsplit], heq, hlt, ?_, h2⟩
        intro y hy
        rcases List.mem_cons.mp hy with rfl | hy2
        · exact lt_of_le_of_lt (not_lt.mp h) hlt
        · exact h1 y hy2

/-- Characterization of `maxByMedia` on a chronologically sorted result
list: the selected pair is in the list, its media key is maximal, and
among the pairs attaining the maximal key it has the least (earliest)
window start. -/
theorem maxByMedia_spec (l : List (ℕ × Statistiche)) (sel : ℕ × Statistiche)
    (hsorted : List.Pairwise (fun p q : ℕ × Statistiche => p.1 < q.1) l)
    (hsel : maxByMedia l = some sel) :
    sel ∈ l ∧ (∀ x ∈ l, mediaKey x ≤ mediaKey sel) ∧
      (∀ x ∈ l, mediaKey x = mediaKey sel → sel.1 ≤ x.1) := by
  rcases l with _ | ⟨x, xs⟩
  · simp [maxByMedia] at hsel
  · simp only [maxByMedia, Option.some.injEq] at hsel
    rcases scanMax_spec xs x with ⟨heq, hall⟩ | ⟨xs1, r, xs2, hsplit, heq, hlt, h1, h2⟩
    · rw [heq] at hsel
      subst hsel
      refine ⟨List.mem_cons_self _ _, ?_, ?_⟩
      · intro y hy
        rcases List.mem_cons.mp hy with rfl | hy2
        · exact le_rfl
        · exact hall y hy2
      · intro y hy _
        rcases List.mem_cons.mp hy with rfl | hy2
        · exact le_rfl
        · exact le_of_lt ((List.pairwise_cons.mp hsorted).1 y hy2)
    · rw [heq] at hsel
      subst hsel
      subst hsplit
      have hrmem : r ∈ x :: xs1 ++ r :: xs2 := by simp
      have hptail : List.Pairwise (fun p q : ℕ × Statistiche => p.1 < q.1)
          (xs1 ++ r :: xs2) := (List.pairwise_cons.mp hsorted).2
      have hrx2 : ∀ y ∈ xs2, r.1 < y.1 := by
        have := (List.pairwise_append.mp hptail).2.1
        exact (List.pairwise_cons.mp this).1
      refine ⟨hrmem, ?_, ?_⟩
      · intro y hy
        rcases List.mem_cons.mp hy with rfl | hy2
        · exact le_of_lt hlt
        · rcases List.mem_append.mp hy2 with hy3 | hy4
          · exact le_of_lt (h1 y hy3)
          · rcases List.mem_cons.mp hy4 with rfl | hy5
            · exact le_rfl
            · exact h2 y hy5
      · intro y hy hkey
        rcases List.mem_cons.mp hy with rfl | hy2
        · exact absurd hkey.symm (ne_of_gt hlt)
        · rcases List.mem_append.mp hy2 with hy3 | hy4
          · exact absurd hkey (ne_of_lt (h1 y hy3))
          · rcases List.mem_cons.mp hy4 with rfl | hy5
            · exact le_rfl
            · exact le_of_lt (hrx2 y hy5)

/-- Every window recorded in `risultati` by the sliding loop starts at
one of the visited start times. -/
theorem rollingLoop_mem_starts (crop : List ℚ → Option (List ℚ))
    (cfg : ConfigStatistiche) (tiles : List Tile) (durata : ℕ) :
    ∀ (starts : List ℕ) (ris : List (ℕ × Statistiche)) (log : List LogEntry),
      rollingLoop crop cfg tiles durata starts = Except.ok (ris, log) →
      ∀ p ∈ ris, p.1 ∈ starts := by
  intro starts
  induction starts with
  | nil =>
    intro ris log h p hp
    simp only [rollingLoop, Except.ok.injEq, Prod.mk.injEq] at h
    rw [← h.1] at hp
    simp at hp
  | cons c rest ih =>
    intro ris log h p hp
    simp only [rollingLoop] at h
    cases hval : valuta_finestra crop cfg tiles c (c + durata) with
    | error e => rw [hval] at h; simp at h
    | ok res =>
      rw [hval] at h
      cases hrec : rollingLoop crop cfg tiles durata rest with
      | error e => rw [hrec] at h; simp at h
      | ok pr =>
        obtain ⟨ris', log'⟩ := pr
        rw [hrec] at h
        have hmem : ∀ q ∈ ris', q.1 ∈ rest := fun q hq => ih ris' log' hrec q hq
        cases res with
        | none =>
          simp only [Except.ok.injEq, Prod.mk.injEq] at h
          rw [← h.1] at hp
          exact List.mem_cons_of_mem _ (hmem p hp)
        | some sf =>
          obtain ⟨s, files⟩ := sf
          by_cases hnv : s.nonVuoto = true
          · simp only [hnv, if_true, Except.ok.injEq, Prod.mk.injEq] at h
            rw [← h.1] at hp
            rcases List.mem_cons.mp hp with rfl | hp2
            · exact List.mem_cons_self _ _
            · exact List.mem_cons_of_mem _ (hmem p hp2)
          · simp only [hnv, Bool.false_eq_true, if_false, Except.ok.injEq,
              Prod.mk.injEq] at h
            rw [← h.1] at hp
            exact List.mem_cons_of_mem _ (hmem p hp)

/-- The `risultati` list accumulated by the sliding loop is in
chronological window order whenever the visited starts are. -/
theorem rollingLoop_pairwise (crop : List ℚ → Option (List ℚ))
    (cfg : ConfigStatistiche) (tiles : List Tile) (durata : ℕ) :
    ∀ (starts : List ℕ) (ris : List (ℕ × Statistiche)) (log : List LogEntry),
      List.Pairwise (· < ·) starts →
      rollingLoop crop cfg tiles durata starts = Except.ok (ris, log) →
      List.Pairwise (fun p q : ℕ × Statistiche => p.1 < q.1) ris := by
  intro starts
  induction starts with
  | nil =>
    intro ris log _ h
    simp only [rollingLoop, Except.ok.injEq, Prod.mk.injEq] at h
    rw [← h.1]
    exact List.Pairwise.nil
  | cons c rest ih =>
    intro ris log hpw h
    simp only [rollingLoop] at h
    cases hval : valuta_finestra crop cfg tiles c (c + durata) with
    | error e => rw [hval] at h; simp at h
    | ok res =>
      rw [hval] at h
      cases hrec : rollingLoop crop cfg tiles durata rest with
      | error e => rw [hrec] at h; simp at h
      | ok pr =>
        obtain ⟨ris', log'⟩ := pr
        rw [hrec] at h
        have hpwrest := (List.pairwise_cons.mp hpw).2
        have hclt := (List.pairwise_cons.mp hpw).1
        have htail : List.Pairwise (fun p q : ℕ × Statistiche => p.1 < q.1) ris' :=
          ih ris' log' hpwrest hrec
        have hmem : ∀ q ∈ ris', q.1 ∈ rest :=
          fun q hq => rollingLoop_mem_starts crop cfg tiles durata rest ris' log' hrec q hq
        cases res with
        | none =>
          simp only [Except.ok.injEq, Prod.mk.injEq] at h
          rw [← h.1]
          exact htail
        | some sf =>
          obtain ⟨s, files⟩ := sf
          by_cases hnv : s.nonVuoto = true
          · simp only [hnv, if_true, Except.ok.injEq, Prod.mk.injEq] at h
            rw [← h.1]
            exact List.pairwise_cons.mpr ⟨fun q hq => hclt q.1 (hmem q hq), htail⟩
          · simp only [hnv, Bool.false_eq_true, if_false, Except.ok.injEq,
              Prod.mk.injEq] at h
            rw [← h.1]
            exact htail

/-- C2 (confirmed).  For a rolling duration, when the sliding pass
produces the result list `ris` and the linear max-scan selects `sel`,
then `finestre_mobili_con_somma_e_ritaglio` returns exactly `sel`'s
statistics, `sel` is one of the evaluated windows, its mean (the
`get('media', 0)` key) is ≥ the mean of every other evaluated window, and
among the windows attaining the maximal mean `sel` has the earliest
start. -/
theorem c2_finestra_vincente (crop : List ℚ → Option (List ℚ))
    (cfg : ConfigStatistiche) (tiles : List Tile) (durata giorno : ℕ)
    (ris : List (ℕ × Statistiche)) (log : List LogEntry) (sel : ℕ × Statistiche)
    (hd : durata ≠ 24) (hne : tiles.isEmpty = false)
    (hrun : rollingRun crop cfg tiles durata (minTs tiles) (maxTs tiles + 1) =
      Except.ok (ris, log))
    (hsel : maxByMedia ris = some sel) :
    finestre_mobili_con_somma_e_ritaglio crop true tiles durata giorno cfg =
      Except.ok (some sel.2, log) ∧
    sel ∈ ris ∧
    (∀ x ∈ ris, mediaKey x ≤ mediaKey sel) ∧
    (∀ x ∈ ris, mediaKey x = mediaKey sel → sel.1 ≤ x.1) := by
  have hpw := rollingLoop_pairwise crop cfg tiles durata
    (loopStarts (minTs tiles) (maxTs tiles + 1) durata) ris log
    (loopStarts_pairwise _ _ _) hrun
  have hspec := maxByMedia_spec ris sel hpw hsel
  refine ⟨?_, hspec.1, hspec.2.1, hspec.2.2⟩
  unfold finestre_mobili_con_somma_e_ritaglio
  rw [hne]
  simp only [Bool.false_eq_true, if_false, Bool.not_true, if_neg hd]
  rw [hrun]
  dsimp only
  rw [hsel]

/-- A configuration with only the mean enabled (test fixture). -/
def cfgMedia : ConfigStatistiche :=
  ⟨true, false, false, false, false, false, false, false⟩

/-- C2 witness: two one-tile windows with means 2 and 7; the scan selects
the 7-mean window and returns its statistics. -/
theorem c2_finestra_vincente_witness :
    finestre_mobili_con_somma_e_ritaglio (fun a => some a) true
      [⟨"a.tif", 0, some [2]⟩, ⟨"b.tif", 1, some [7]⟩] 1 0 cfgMedia =
      Except.ok (some ⟨some 7, none, none, none, none, none, none, none⟩,
        [⟨0, 1, ⟨some 2, none, none, none, none, none, none, none⟩, ["a.tif"]⟩,
         ⟨1, 2, ⟨some 7, none, none, none, none, none, none, none⟩, ["b.tif"]⟩]) ∧
    (∀ x ∈ [((0 : ℕ), (⟨some 2, none, none, none, none, none, none, none⟩ : Statistiche)),
        (1, ⟨some 7, none, none, none, none, none, none, none⟩)],
      mediaKey x ≤ mediaKey ((1 : ℕ),
        (⟨some 7, none, none, none, none, none, none, none⟩ : Statistiche))) := by
  have h := c2_finestra_vincente (fun a => some a) cfgMedia
    [⟨"a.tif", 0, some [2]⟩, ⟨"b.tif", 1, some [7]⟩] 1 0
    [(0, ⟨some 2, none, none, none, none, none, none, none⟩),
     (1, ⟨some 7, none, none, none, none, none, none, none⟩)]
    [⟨0, 1, ⟨some 2, none, none, none, none, none, none, none⟩, ["a.tif"]⟩,
     ⟨1, 2, ⟨some 7, none, none, none, none, none, none, none⟩, ["b.tif"]⟩]
    (1, ⟨some 7, none, none, none, none, none, none, none⟩)
    (by decide) rfl
    (by norm_num [rollingRun, rollingLoop, loopStarts, loopStartsFuel, minTs, maxTs,
      valuta_finestra, somma_file_tif_finestra, file_finestra,
      calcola_statistiche_su_array_ritagliato, valori_validi, npMean,
      Statistiche.nonVuoto, cfgMedia, List.filter])
    (by decide)
  exact ⟨h.1, h.2.2.1⟩

/-! ## Claim C4: the 24h duration evaluates exactly the calendar day -/

/-- C4 (confirmed).  For the 24-hour duration the search (1) depends only
on the tiles of the calendar day `giorno` (pre-filtering the input list
to that day leaves the result unchanged, so tiles of neighboring days are
irrelevant), and (2) never evaluates more than one window, that window
being the calendar day `[giorno*24, giorno*24+24)`; when the day's
statistics are produced (non-null, truthy) the log holds exactly one
window.  No sliding occurs. -/
theorem c4_durata_24_calendario (crop : List ℚ → Option (List ℚ)) (sh : Bool)
    (tiles : List Tile) (giorno : ℕ) (cfg : ConfigStatistiche) :
    (finestre_mobili_con_somma_e_ritaglio crop sh tiles 24 giorno cfg =
      finestre_mobili_con_somma_e_ritaglio crop sh
        (tiles.filter (fun t => decide (t.timestamp / 24 = giorno))) 24 giorno cfg) ∧
    (∀ res log,
      finestre_mobili_con_somma_e_ritaglio crop sh tiles 24 giorno cfg =
        Except.ok (res, log) →
      log.length ≤ 1 ∧
      (∀ e ∈ log, e.ini = giorno * 24 ∧ e.fine = giorno * 24 + 24) ∧
      (∀ s, res = some s → s.nonVuoto = true → log.length = 1)) := by
  constructor
  · unfold finestre_mobili_con_somma_e_ritaglio
    by_cases hsh : sh
    · by_cases hemp : tiles.isEmpty
      · have : tiles = [] := List.isEmpty_iff.mp hemp
        subst this
        simp
      · by_cases hfe : (tiles.filter (fun t => decide (t.timestamp / 24 = giorno))).isEmpty
        · simp [hemp, hfe, List.filter_filter]
        · simp [hemp, hfe, List.filter_filter]
    · simp [hsh]
  · intro res log h
    unfold finestre_mobili_con_somma_e_ritaglio at h
    by_cases hemp : tiles.isEmpty
    · simp only [hemp, if_true] at h
      obtain ⟨rfl, rfl⟩ := (by simpa using h : none = res ∧ [] = log)
      refine ⟨by simp, by simp, ?_⟩
      intro s hs
      exact absurd hs (by simp)
    · by_cases hsh : sh
      · subst hsh
        simp only [hemp, Bool.false_eq_true, if_false, Bool.not_true] at h
        by_cases hfe : (tiles.filter (fun t => decide (t.timestamp / 24 = giorno))).isEmpty
        · simp only [hfe, if_true] at h
          obtain ⟨rfl, rfl⟩ := (by simpa using h : none = res ∧ [] = log)
          refine ⟨by simp, by simp, ?_⟩
          intro s hs
          exact absurd hs (by simp)
        · simp only [hfe, Bool.false_eq_true, if_false, eq_self_iff_true, if_true] at h
          cases hsum : somma_file_tif_finestra
              (tiles.filter (fun t => decide (t.timestamp / 24 = giorno)))
              (giorno * 24) (giorno * 24 + 24) with
          | error e => rw [hsum] at h; simp at h
          | ok osum =>
            rw [hsum] at h
            cases osum with
            | none =>
              obtain ⟨rfl, rfl⟩ := (by simpa using h : none = res ∧ [] = log)
              refine ⟨by simp, by simp, ?_⟩
              intro s hs
              exact absurd hs (by simp)
            | some pr =>
              obtain ⟨data_somma, file_inclusi⟩ := pr
              dsimp only at h
              cases hcrop : crop data_somma with
              | none =>
                rw [hcrop] at h
                dsimp only at h
                obtain ⟨rfl, rfl⟩ := (by simpa using h : none = res ∧ [] = log)
                refine ⟨by simp, by simp, ?_⟩
                intro s hs
                exact absurd hs (by simp)
              | some arr =>
                rw [hcrop] at h
                dsimp only at h
                cases hst : calcola_statistiche_su_array_ritagliato (some arr) cfg with
                | none =>
                  rw [hst] at h
                  dsimp only at h
                  obtain ⟨rfl, rfl⟩ := (by simpa using h : none = res ∧ [] = log)
                  refine ⟨by simp, by simp, ?_⟩
                  intro s hs
                  exact absurd hs (by simp)
                | some s0 =>
                  rw [hst] at h
                  dsimp only at h
                  by_cases hnv : s0.nonVuoto = true
                  · simp only [hnv, if_true, Except.ok.injEq, Prod.mk.injEq] at h
                    obtain ⟨h1, h2⟩ := h
                    subst h1
                    subst h2
                    refine ⟨by simp, ?_, ?_⟩
                    · intro e he
                      rcases List.mem_singleton.mp he with rfl
                      exact ⟨rfl, rfl⟩
                    · intro s _ _
                      simp
                  · simp only [hnv, Bool.false_eq_true, if_false, Except.ok.injEq,
                      Prod.mk.injEq] at h
                    obtain ⟨h1, h2⟩ := h
                    subst h1
                    subst h2
                    refine ⟨by simp, by simp, ?_⟩
                    intro s hs hnv2
                    cases Option.some.inj hs
                    exact absurd hnv2 hnv
      · have : sh = false := Bool.not_eq_true sh |>.mp hsh
        subst this
        simp only [hemp, Bool.false_eq_true, if_false, Bool.not_false, if_true] at h
        obtain ⟨rfl, rfl⟩ := (by simpa using h : none = res ∧ [] = log)
        refine ⟨by simp, by simp, ?_⟩
        intro s hs
        exact absurd hs (by simp)

/-- C4 witness: one tile on day 0; the single evaluated window is
`[0, 24)` and, the statistics being truthy, the log holds exactly one
window. -/
theorem c4_durata_24_calendario_witness :
    (([⟨0, 24, ⟨some 2, none, none, none, none, none, none, none⟩, ["a.tif"]⟩] :
        List LogEntry)).length ≤ 1 ∧
    (∀ e ∈ ([⟨0, 24, ⟨some 2, none, none, none, none, none, none, none⟩, ["a.tif"]⟩] :
        List LogEntry), e.ini = 0 * 24 ∧ e.fine = 0 * 24 + 24) ∧
    (∀ s, (some (⟨some 2, none, none, none, none, none, none, none⟩ : Statistiche)) = some s →
      s.nonVuoto = true →
      (([⟨0, 24, ⟨some 2, none, none, none, none, none, none, none⟩, ["a.tif"]⟩] :
        List LogEntry)).length = 1) :=
  (c4_durata_24_calendario (fun a => some a) true [⟨"a.tif", 0, some [2]⟩] 0 cfgMedia).2
    (some ⟨some 2, none, none, none, none, none, none, none⟩)
    [⟨0, 24, ⟨some 2, none, none, none, none, none, none, none⟩, ["a.tif"]⟩]
    (by norm_num [finestre_mobili_con_somma_e_ritaglio, somma_file_tif_finestra,
      file_finestra, calcola_statistiche_su_array_ritagliato, valori_validi, npMean,
      Statistiche.nonVuoto, cfgMedia, List.filter])

/-! ## Claim C7: integrity classification of expected hourly slots -/

/-- Whether the day directory holds a file that the verifier classifies
valid with parsed timestamp `ts` (i.e. whether `ts` ends up in
`file_trovati`). -/
def esisteValido (dir : Option (List FileTif)) (ts : DT) : Bool :=
  match dir with
  | none => false
  | some files =>
    files.any (fun f => decide (f.tsFile = some ts) && decide (classifica f = Classif.valido))

/-- A timestamp is among `file_trovati` iff some file of the directory
parses to it and is classified valid. -/
theorem mem_trovati (d : ℕ) (files : List FileTif) (ts : DT) :
    ts ∈ (files.filterMap (entryValido d)).map (fun e => e.2.1) ↔
      ∃ f ∈ files, f.tsFile = some ts ∧ classifica f = Classif.valido := by
  simp only [List.mem_map, List.mem_filterMap]
  constructor
  · rintro ⟨e, ⟨f, hf, he⟩, hts⟩
    refine ⟨f, hf, ?_⟩
    cases hfts : f.tsFile with
    | none => simp [entryValido, hfts] at he
    | some ts2 =>
      cases hcl : classifica f with
      | valido =>
        simp only [entryValido, hfts, hcl] at he
        obtain rfl := Option.some.inj he
        dsimp only at hts
        subst hts
        exact ⟨rfl, rfl⟩
      | corrotto msg => simp [entryValido, hfts, hcl] at he
      | saltato => simp [entryValido, hfts, hcl] at he
  · rintro ⟨f, hf, hts, hcl⟩
    exact ⟨(d, ts, f.nome), ⟨f, hf, by unfold entryValido; rw [hts, hcl]⟩, rfl⟩

/-- `esisteValido` agrees with the existence of a valid file. -/
theorem esisteValido_iff (files : List FileTif) (ts : DT) :
    esisteValido (some files) ts = true ↔
      ∃ f ∈ files, f.tsFile = some ts ∧ classifica f = Classif.valido := by
  simp [esisteValido, List.any_eq_true]

/-- Membership in one day's missing list: exactly the expected top-of-hour
slots for which no valid file was found. -/
theorem processaGiorno_mancanti_mem (d : ℕ) (dir : Option (List FileTif))
    (x : ℕ × DT) :
    x ∈ (processaGiorno d dir).mancanti ↔
      ∃ ora < 24, x = (d, tsAtteso d ora) ∧
        esisteValido dir (tsAtteso d ora) = false := by
  cases dir with
  | none =>
    simp only [processaGiorno, List.mem_map, List.mem_range]
    constructor
    · rintro ⟨ora, hlt, rfl⟩
      exact ⟨ora, hlt, rfl, rfl⟩
    · rintro ⟨ora, hlt, rfl, _⟩
      exact ⟨ora, hlt, rfl⟩
  | some files =>
    simp only [processaGiorno, List.mem_filterMap, List.mem_range]
    constructor
    · rintro ⟨ora, hlt, hif⟩
      by_cases hmem : tsAtteso d ora ∈ (files.filterMap (entryValido d)).map (fun e => e.2.1)
      · rw [if_pos hmem] at hif
        exact absurd hif (by simp)
      · rw [if_neg hmem] at hif
        obtain rfl := Option.some.inj hif
        refine ⟨ora, hlt, rfl, ?_⟩
        rw [← Bool.not_eq_true]
        intro hc
        exact hmem ((mem_trovati d files _).mpr ((esisteValido_iff files _).mp hc))
    · rintro ⟨ora, hlt, rfl, hval⟩
      refine ⟨ora, hlt, ?_⟩
      have hmem : tsAtteso d ora ∉ (files.filterMap (entryValido d)).map (fun e => e.2.1) := by
        intro hc
        have := (esisteValido_iff files _).mpr ((mem_trovati d files _).mp hc)
        rw [hval] at this
        exact absurd this (by simp)
      rw [if_neg hmem]

/-- C7 (corrected): counterexample.  A day directory holding exactly one
top-of-hour tile that fails to open: the 09:00 slot is recorded corrupt
AND also recorded missing (`file_trovati` is populated only by valid
files, source line 505), contradicting the claim that a corrupt hour is
not also recorded missing. -/
theorem c7_controesempio_corrotto_e_mancante :
    ((0, tsAtteso 0 9) ∈
      (verifica_integrita_archivio
        (fun d => if d = 0 then
            some [⟨"x20230105090000.tif", true, some ⟨0, 9, 0, 0⟩, false, 0, false, "boom"⟩]
          else none) 0 0).mancanti) ∧
    ((0, (⟨0, 9, 0, 0⟩ : DT), "x20230105090000.tif", "boom") ∈
      (verifica_integrita_archivio
        (fun d => if d = 0 then
            some [⟨"x20230105090000.tif", true, some ⟨0, 9, 0, 0⟩, false, 0, false, "boom"⟩]
          else none) 0 0).corrotti) := by
  constructor <;> decide

/-- C7 (corrected).  Amended claim: each expected `(date, hour)` slot of
the inclusive range is recorded missing IFF no file of that day's
directory both parses to that top-of-hour timestamp and is classified
VALID; hence an hour whose only tile is corrupt (unreadable or zero
bands) is recorded corrupt and ALSO recorded missing, while an hour with
a valid tile is recorded in exactly one list. -/
theorem c7_mancante_sse_nessun_valido (arch : ℕ → Option (List FileTif))
    (dIni dFin d ora : ℕ) :
    (d, tsAtteso d ora) ∈ (verifica_integrita_archivio arch dIni dFin).mancanti ↔
      (dIni ≤ d ∧ d ≤ dFin ∧ ora < 24 ∧
        esisteValido (arch d) (tsAtteso d ora) = false) := by
  unfold verifica_integrita_archivio
  simp only [List.mem_flatMap]
  constructor
  · rintro ⟨d2, hd2, hmem⟩
    obtain ⟨ora2, hlt2, heq, hval⟩ := (processaGiorno_mancanti_mem d2 (arch d2) _).mp hmem
    have hd : d = d2 := congrArg Prod.fst heq
    have hts : tsAtteso d ora = tsAtteso d2 ora2 := congrArg Prod.snd heq
    have hora : ora = ora2 := congrArg DT.ora hts
    subst hd
    subst hora
    have hrange := List.mem_range'_1.mp hd2
    exact ⟨hrange.1, by omega, hlt2, hval⟩
  · rintro ⟨h1, h2, h3, h4⟩
    refine ⟨d, List.mem_range'_1.mpr ⟨h1, by omega⟩, ?_⟩
    exact (processaGiorno_mancanti_mem d (arch d) _).mpr ⟨ora, h3, rfl, h4⟩

/-! ## Claim C8: 5-day antecedent cumulative rainfall -/

/-- Summing the non-NaN values equals summing with NaN read as 0. -/
theorem sum_filterMap_join (l : List ℕ) (f : ℕ → Option ℚ) :
    (l.filterMap f).sum = (l.map (fun j => (f j).getD 0)).sum := by
  induction l with
  | nil => rfl
  | cons a l ih =>
    cases hfa : f a <;> simp [hfa, ih]

/-- The rolling-sum cell read back with `fillna(0)` is the plain trailing
sum with NaN entries contributing zero. -/
theorem rollingSum6_getD (s : List (Option ℚ)) (p : ℕ) :
    (rollingSum6 s p).getD 0 =
      ((List.range' (p + 1 - 6) (p + 1 - (p + 1 - 6))).map
        (fun j => ((s.get? j).join).getD 0)).sum := by
  unfold rollingSum6
  by_cases hemp : ((List.range' (p + 1 - 6) (p + 1 - (p + 1 - 6))).filterMap
      (fun j => (s.get? j).join)).isEmpty
  · rw [if_pos hemp, ← sum_filterMap_join, List.isEmpty_iff.mp hemp]
    rfl
  · rw [if_neg hemp, Option.getD_some, sum_filterMap_join]

/-- C8 (confirmed).  `calcola_cum_5d` preserves the series length (no
date is omitted) and its value at every index `i` is the trailing sum of
the 6 entries at indices `i−6 .. i−1` (clamped at the series start, NaN
and out-of-history entries contributing zero): the width-6 rolling sum
shifted forward by one day, today excluded, with insufficient history
defaulting to zero. -/
theorem c8_cum_5d_finestra_mobile (s : List (Option ℚ)) :
    ((calcola_cum_5d s).length = s.length) ∧
    (∀ i, i < s.length →
      (calcola_cum_5d s).get? i =
        some (((List.range' (i - 6) (i - (i - 6))).map
          (fun j => ((s.get? j).join).getD 0)).sum)) := by
  refine ⟨by simp [calcola_cum_5d], ?_⟩
  intro i hi
  unfold calcola_cum_5d
  rw [List.get?_map, List.get?_range hi]
  cases i with
  | zero => rfl
  | succ k =>
    rw [Option.map_some', if_neg (Nat.succ_ne_zero k)]
    exact congrArg some (rollingSum6_getD s k)

/-- C8 witness: series `[1, NaN, 3]` at index 2: the trailing sum over
indices 0..1 reads `1 + 0`. -/
theorem c8_cum_5d_finestra_mobile_witness :
    (calcola_cum_5d [some 1, none, some 3]).get? 2 =
      some (((List.range' (2 - 6) (2 - (2 - 6))).map
        (fun j => ((([some (1 : ℚ), none, some 3]).get? j).join).getD 0)).sum) :=
  (c8_cum_5d_finestra_mobile [some 1, none, some 3]).2 2 (by decide)

/-! ## Claim C9: additive Peq0 merge -/

/-- `colIdx` returns an index holding the searched column. -/
theorem colIdx_get (c : String) :
    ∀ (cols : List String) (i : ℕ), colIdx cols c = some i → cols.get? i = some c := by
  intro cols
  induction cols with
  | nil => intro i h; simp [colIdx] at h
  | cons c2 rest ih =>
    intro i h
    by_cases he : c2 = c
    · rw [colIdx, if_pos he] at h
      obtain rfl := Option.some.inj h
      simp [he]
    · rw [colIdx, if_neg he] at h
      cases hrec : colIdx rest c with
      | none => rw [hrec] at h; exact absurd h (by simp)
      | some j =>
        rw [hrec] at h
        obtain rfl := Option.some.inj h
        simpa using ih j hrec

/-- A present column has an index. -/
theorem colIdx_isSome_of_mem (c : String) :
    ∀ cols : List String, c ∈ cols → ∃ i, colIdx cols c = some i := by
  intro cols
  induction cols with
  | nil => intro h; simp at h
  | cons c2 rest ih =>
    intro h
    by_cases he : c2 = c
    · exact ⟨0, by rw [colIdx, if_pos he]⟩
    · rcases List.mem_cons.mp h with rfl | h2
      · exact absurd rfl he
      · obtain ⟨j, hj⟩ := ih h2
        exact ⟨j + 1, by rw [colIdx, if_neg he, hj]; rfl⟩

/-- Entry `i` of a merged row: defined exactly when column `i` exists,
and equal to base-or-0 plus Peq0-or-0 for that column. -/
theorem mergeCelle_get (b : DataFrame) (d : ℕ) :
    ∀ (cs : List String) (vs : List (Option ℚ)) (i : ℕ),
      (mergeCelle b d cs vs).get? i =
        (cs.get? i).map
          (fun c => some (((vs.get? i).join).getD 0 + (cella b d c).getD 0)) := by
  intro cs
  induction cs with
  | nil => intro vs i; simp [mergeCelle]
  | cons c cs ih =>
    intro vs i
    cases vs with
    | nil =>
      cases i with
      | zero => simp [mergeCelle]
      | succ n => simpa [mergeCelle] using ih [] n
    | cons v vs2 =>
      cases i with
      | zero => simp [mergeCelle]
      | succ n => simpa [mergeCelle] using ih vs2 n

/-- With pairwise-distinct keys, `find?` by key returns the unique
element holding that key. -/
theorem find_chiave_some {β : Type} :
    ∀ (l : List (ℕ × β)) (x : ℕ × β),
      (l.map Prod.fst).Nodup → x ∈ l →
      l.find? (fun r => decide (r.1 = x.1)) = some x := by
  intro l
  induction l with
  | nil => intro x _ hx; simp at hx
  | cons y l ih =>
    intro x hnd hx
    rcases List.mem_cons.mp hx with rfl | hx2
    · simp [List.find?]
    · have hne : (y.1 = x.1) = False := by
        simp only [eq_iff_iff, iff_false]
        intro he
        have hxm : x.1 ∈ l.map Prod.fst := List.mem_map.mpr ⟨x, hx2, rfl⟩
        rw [← he] at hxm
        exact (List.nodup_cons.mp (by simpa using hnd)).1 hxm
      have : (fun r : ℕ × β => decide (r.1 = x.1)) y = false := by simp [hne]
      rw [List.find?_cons_of_neg _ (by simp [this])]
      exact ih x (List.nodup_cons.mp (by simpa using hnd)).2 hx2

/-- `find?` by a key absent from the key list fails. -/
theorem find_chiave_none {β : Type} (l : List (ℕ × β)) (d : ℕ)
    (h : d ∉ l.map Prod.fst) :
    l.find? (fun r => decide (r.1 = d)) = none := by
  apply List.find?_eq_none.mpr
  intro x hx
  simp only [decide_eq_true_eq]
  intro he
  exact h (List.mem_map.mpr ⟨x, hx, he⟩)

/-- Date-ordered insertion permutes. -/
theorem insRiga_perm (x : ℕ × List (Option ℚ)) :
    ∀ l, (insRiga x l).Perm (x :: l) := by
  intro l
  induction l with
  | nil => exact List.Perm.refl _
  | cons y ys ih =>
    by_cases h : x.1 ≤ y.1
    · rw [insRiga, if_pos h]
    · rw [insRiga, if_neg h]
      exact (ih.cons y).trans (List.Perm.swap x y ys)

/-- The final `sort_values('Data')` permutes the rows. -/
theorem sortRighe_perm (l : List (ℕ × List (Option ℚ))) :
    (sortRighe l).Perm l := by
  induction l with
  | nil => exact List.Perm.refl _
  | cons x l ih =>
    exact (insRiga_perm x (sortRighe l)).trans (ih.cons x)

/-- C9 (corrected): counterexample.  A Peq0 table holding date 1 merged
onto a base table holding only date 0: date 1's Peq0 value (3) does NOT
survive into the merged table — the left join keeps only base dates —
contradicting the claim that a date absent from the base table
contributes the Peq0 value alone. -/
theorem c9_controesempio_data_solo_peq0 :
    cella ⟨["IM_01"], [(1, [some 3])]⟩ 1 "IM_01" = some 3 ∧
    cella (somma_statistiche_con_peq0 ⟨["IM_01"], [(0, [some 5])]⟩
      ⟨["IM_01"], [(1, [some 3])]⟩) 1 "IM_01" = none := by
  constructor <;> rfl

/-- C9 (corrected).  Amended claim: the merged table keeps exactly the
base table's zone columns and dates (a date or zone present only in the
Peq0 table is dropped, not contributed); within them every cell equals
`base + peq0` with a missing entry on either side read as zero — so a
date/zone absent from the Peq0 table leaves the base value unchanged, and
a base cell that is NaN while Peq0 has a value yields the Peq0 value
alone.  The embedding is pure, so the original base table is trivially
retained unmodified (as in the source, where the merge builds new
frames). -/
theorem c9_merge_additiva (df_statistica df_peq0 : DataFrame)
    (hnd : (df_statistica.righe.map Prod.fst).Nodup) :
    ((somma_statistiche_con_peq0 df_statistica df_peq0).colonne =
      df_statistica.colonne) ∧
    (((somma_statistiche_con_peq0 df_statistica df_peq0).righe.map Prod.fst).Perm
      (df_statistica.righe.map Prod.fst)) ∧
    (∀ d c, d ∈ df_statistica.righe.map Prod.fst → c ∈ df_statistica.colonne →
      cella (somma_statistiche_con_peq0 df_statistica df_peq0) d c =
        some ((cella df_statistica d c).getD 0 + (cella df_peq0 d c).getD 0)) ∧
    (∀ d, d ∉ df_statistica.righe.map Prod.fst →
      ∀ c, cella (somma_statistiche_con_peq0 df_statistica df_peq0) d c = none) := by
  have hperm : ((somma_statistiche_con_peq0 df_statistica df_peq0).righe.map
      Prod.fst).Perm (df_statistica.righe.map Prod.fst) := by
    unfold somma_statistiche_con_peq0
    refine ((sortRighe_perm _).map Prod.fst).trans ?_
    rw [List.map_map]
    exact List.Perm.refl _
  have hndres : (((somma_statistiche_con_peq0 df_statistica df_peq0).righe.map
      Prod.fst)).Nodup := (hperm.nodup_iff).mpr hnd
  refine ⟨rfl, hperm, ?_, ?_⟩
  · intro d c hd hc
    obtain ⟨r, hr, hrd⟩ := List.mem_map.mp hd
    obtain ⟨rd, vals⟩ := r
    subst hrd
    obtain ⟨i, hi⟩ := colIdx_isSome_of_mem c df_statistica.colonne hc
    have hrow : ((rd, vals).1, mergeCelle df_peq0 (rd, vals).1 df_statistica.colonne
        (rd, vals).2) ∈ (somma_statistiche_con_peq0 df_statistica df_peq0).righe := by
      unfold somma_statistiche_con_peq0
      refine (sortRighe_perm _).mem_iff.mpr ?_
      exact List.mem_map.mpr ⟨(rd, vals), hr, rfl⟩
    have hfound := find_chiave_some
      (somma_statistiche_con_peq0 df_statistica df_peq0).righe
      ((rd, vals).1, mergeCelle df_peq0 (rd, vals).1 df_statistica.colonne (rd, vals).2)
      hndres hrow
    have hbase := find_chiave_some df_statistica.righe (rd, vals) hnd hr
    unfold cella
    rw [hfound]
    have hcol : (somma_statistiche_con_peq0 df_statistica df_peq0).colonne =
      df_statistica.colonne := rfl
    rw [hcol, hi, hbase]
    dsimp only
    rw [mergeCelle_get, colIdx_get c df_statistica.colonne i hi]
    rfl
  · intro d hd c
    have hnot : d ∉ (somma_statistiche_con_peq0 df_statistica df_peq0).righe.map
        Prod.fst := fun hc => hd (hperm.mem_iff.mp hc)
    unfold cella
    rw [find_chiave_none _ d hnot]

/-- C9 witness: a shared date 0 and zone column: the merged cell is the
symbolic sum of the base cell (read as 0 when NaN) and the Peq0 cell. -/
theorem c9_merge_additiva_witness :
    cella (somma_statistiche_con_peq0 ⟨["IM_01"], [(0, [some 5])]⟩
        ⟨["IM_01"], [(0, [some 3])]⟩) 0 "IM_01" =
      some ((cella ⟨["IM_01"], [(0, [some 5])]⟩ 0 "IM_01").getD 0 +
        (cella ⟨["IM_01"], [(0, [some 3])]⟩ 0 "IM_01").getD 0) :=
  (c9_merge_additiva ⟨["IM_01"], [(0, [some 5])]⟩ ⟨["IM_01"], [(0, [some 3])]⟩
    (by decide)).2.2.1 0 "IM_01" (by decide) (by decide)

/-! ## Claim C10: Peq0 is undefined at CN = 100 -/

/-- C10 (confirmed).  For any positive 5-day cumulative rainfall and the
legal curve number `CN = 100`, `S = 25400/100 − 254 = 0` and `M = 0`, so
the final divisor `S + M` is zero, `lam*S/(S+M)` is `0/0 = NaN`, and the
result is NaN rather than 0; and the per-zone guard, which checks only
`pd.notna(p5) and p5 > 0`, does not exclude `CN = 100`, so the NaN
reaches the Peq0 column. -/
theorem c10_peq0_cn100_nan (x : ℝ) (hx : 0 < x) :
    calcola_peq0 (FV.val x) (FV.val 100) LAMBDA_PEQ = FV.nan ∧
    calcola_peq0_per_tutte_zone_cella (some 100) (FV.val x) = FV.nan := by
  have h1 : calcola_peq0 (FV.val x) (FV.val 100) LAMBDA_PEQ = FV.nan := by
    unfold calcola_peq0
    norm_num [fdiv, fsub, fadd, fmul, fsqrt, fmax, LAMBDA_PEQ, Real.sqrt_zero]
  refine ⟨h1, ?_⟩
  unfold calcola_peq0_per_tutte_zone_cella
  dsimp only
  rw [if_pos hx]
  exact h1

/-- C10 witness: `P5 = 1 > 0`, `CN = 100`: the Peq0 cell is NaN. -/
theorem c10_peq0_cn100_nan_witness :
    calcola_peq0_per_tutte_zone_cella (some 100) (FV.val 1) = FV.nan :=
  (c10_peq0_cn100_nan 1 (by norm_num)).2

end Radar
